import Mathlib

/-!
Verification development for the market-correlation-analysis repository.

The computational core of the repository is embedded shallowly:

* `PyFloat` models a Python float as either a rational number or the
  not-a-number value; every comparison involving not-a-number is false,
  as in IEEE-754 / Python.
* `classify_correlation`, `build_category_map` and `group_correlations`
  are translated from `src/correlation_analysis/logic.py`; the threshold
  and sector constants come from `src/correlation_analysis/config.py`.
* Python dictionaries are modelled as association lists in insertion
  order (`dictSet` assigns, `lookupStr`/`dictGetD` read); Python
  exceptions (IndexError on a positional matrix access, KeyError on a
  missing bucket) are modelled with `Except PyErr`.
* `compute_correlation_matrices` from `src/correlation_analysis/data.py`
  is embedded as the composition `pct_change W ∘ dropna ∘ corr`, with
  exact rational arithmetic for the returns and the Pearson coefficient
  over the reals (the square root of a rational is irrational, so the
  correlation entries live in `Option ℝ`, `none` standing for an
  undefined / not-a-number entry).
-/

namespace MarketCorr

/-- A Python float: a rational number or the not-a-number value. -/
inductive PyFloat
| nan
| num (q : ℚ)
deriving DecidableEq

/-- Python `a >= b` on floats: false whenever either side is not-a-number. -/
def pyGe : PyFloat → PyFloat → Bool
| PyFloat.num a, PyFloat.num b => decide (b ≤ a)
| _, _ => false

/-- Python `a <= b` on floats: false whenever either side is not-a-number. -/
def pyLe : PyFloat → PyFloat → Bool
| PyFloat.num a, PyFloat.num b => decide (a ≤ b)
| _, _ => false

/-- Python `a < b` on floats: false whenever either side is not-a-number. -/
def pyLt : PyFloat → PyFloat → Bool
| PyFloat.num a, PyFloat.num b => decide (a < b)
| _, _ => false

/-- Python `(val ** 2) * 100` on a float (`logic.py`, line 69). -/
def pySquareTimes100 : PyFloat → PyFloat
| PyFloat.nan => PyFloat.nan
| PyFloat.num q => PyFloat.num (q ^ 2 * 100)

/- Correlation thresholds from `config.py`, lines 14-19, written as explicit
fractions (`mkRat n 100` is n/100) so that the kernel can evaluate them:
0.80, 0.50, -0.20, 0.20, -0.50, -0.80. -/

def TWINS_THRESHOLD : ℚ := mkRat 80 100

def MODERATE_POS_THRESHOLD : ℚ := mkRat 50 100

def INDEPENDENT_LOW : ℚ := mkRat (-20) 100

def INDEPENDENT_HIGH : ℚ := mkRat 20 100

def WEAK_NEG_THRESHOLD : ℚ := mkRat (-50) 100

def MIRROR_THRESHOLD : ℚ := mkRat (-80) 100

/-- Translation of `classify_correlation` from `logic.py`, lines 18-35: a sequence of
early-return `if`s, first match wins; chained comparisons
`a <= val <= b` are the conjunction of the two comparisons. -/
def classify_correlation (val : PyFloat) : String × String :=
  if pyGe val (PyFloat.num TWINS_THRESHOLD) then
    ("Twins (High Risk)", "pos_strong")
  else if pyGe val (PyFloat.num MODERATE_POS_THRESHOLD) then
    ("Moderate Positive", "pos_mod")
  else if pyLe (PyFloat.num INDEPENDENT_LOW) val && pyLe val (PyFloat.num INDEPENDENT_HIGH) then
    ("Independent (Diversify)", "null")
  else if pyLt (PyFloat.num WEAK_NEG_THRESHOLD) val && pyLt val (PyFloat.num INDEPENDENT_LOW) then
    ("Weak Inverse", "neg_weak")
  else if pyLt (PyFloat.num MIRROR_THRESHOLD) val && pyLe val (PyFloat.num WEAK_NEG_THRESHOLD) then
    ("Moderate Inverse", "neg_mod")
  else if pyLe val (PyFloat.num MIRROR_THRESHOLD) then
    ("Mirror (Hedging)", "neg_strong")
  else
    ("Weak Positive / Noise", "weak")

/-- The section 4.2 ladder exactly as the specification's table states it,
evaluated top-down with first match winning, for a real (rational)
correlation value.  This is the specification-side definition that
`classify_correlation` is compared against. -/
def specClassify (v : ℚ) : String × String :=
  if 0.80 ≤ v then
    ("Twins (High Risk)", "pos_strong")
  else if 0.50 ≤ v ∧ v < 0.80 then
    ("Moderate Positive", "pos_mod")
  else if -0.20 ≤ v ∧ v ≤ 0.20 then
    ("Independent (Diversify)", "null")
  else if -0.50 < v ∧ v < -0.20 then
    ("Weak Inverse", "neg_weak")
  else if -0.80 < v ∧ v ≤ -0.50 then
    ("Moderate Inverse", "neg_mod")
  else if v ≤ -0.80 then
    ("Mirror (Hedging)", "neg_strong")
  else
    ("Weak Positive / Noise", "weak")

/-- The constant `SECTORS` from `config.py`, lines 80-89, in source order. -/
def SECTORS : List (String × List String) :=
  [ ("Stock Indices", ["ES", "NQ", "YM", "RTY"]),
    ("Energies", ["CL", "RB", "NG", "HO"]),
    ("Metals", ["GC", "SI", "HG", "PL"]),
    ("Crypto", ["BTC", "ETH"]),
    ("Currencies", ["6B", "6J", "6E", "6S", "6N", "6A", "6C"]),
    ("Bonds/Fixed Income", ["ZN", "ZT"]),
    ("Agriculture (Grains)", ["ZW", "ZS", "ZC", "ZM", "ZL"]),
    ("Livestock (Meats)", ["LE", "HE"]) ]

/-- The sector names, in `SECTORS` order. -/
def sectorNames : List String := SECTORS.map Prod.fst

def OTHERS : String := "Others"

def INTER_MARKET : String := "Inter-Market (Mixed)"

def WEAK_TAG : String := "weak"

def NULL_TAG : String := "null"

def NO_LABEL : String := ""

/-- Python `asset_full.startswith(ticker_key + " ") or asset_full == ticker_key`
(`logic.py`, line 44), at the level of character sequences:
`(t ++ " ")`'s characters are `t.data ++ [' ']`. -/
def tickerMatches (t a : String) : Bool :=
  (t.data ++ [' ']).isPrefixOf a.data || a == t

/-- Python dict assignment `m[k] = v`: replace the value at an existing key in
place, else append the new key at the end (insertion order is preserved). -/
def dictSet : List (String × String) → String → String → List (String × String)
| [], k, v => [(k, v)]
| p :: m, k, v => if p.1 == k then (k, v) :: m else p :: dictSet m k v

/-- Reading a Python dict: the value at the first (unique) matching key. -/
def lookupStr (m : List (String × String)) (k : String) : Option String :=
  (m.find? (fun p => p.1 == k)).map (fun p => p.2)

/-- Python `m.get(k, d)`. -/
def dictGetD (m : List (String × String)) (k d : String) : String :=
  (lookupStr m k).getD d

/-- Translation of `build_category_map` from `logic.py`, lines 38-46: for each sector and each
of its ticker prefixes, assign the sector to every matching asset label. -/
def build_category_map (assets : List String) : List (String × String) :=
  SECTORS.foldl
    (fun cm ct =>
      ct.2.foldl
        (fun cm t =>
          assets.foldl
            (fun cm a => if tickerMatches t a then dictSet cm a ct.1 else cm)
            cm)
        cm)
    []

/-- One (sector, ticker) step of `build_category_map`, used to flatten the
nested loops for reasoning. -/
def applyTicker (assets : List String) (cm : List (String × String))
    (p : String × String) : List (String × String) :=
  assets.foldl
    (fun cm a => if tickerMatches p.2 a then dictSet cm a p.1 else cm) cm

/-- The taxonomy flattened to (sector, ticker) pairs in iteration order. -/
def taxPairs : List (String × String) :=
  SECTORS.foldr (fun s acc => s.2.map (fun t => (s.1, t)) ++ acc) []

/- ---- Grouping (`group_correlations`, `logic.py` lines 49-85) ---- -/

/-- A classified pair: (pair label, correlation, r² in percent,
interpretation label, tag). -/
abbrev Entry := String × PyFloat × PyFloat × String × String

/-- The grouped result: buckets in insertion order. -/
abbrev Grouped := List (String × List Entry)

/-- A Python exception raised by `group_correlations`. -/
inductive PyErr
| indexError
| keyError
deriving DecidableEq

/-- The value at matrix position (i, j), when it exists. -/
def ilocO (m : List (List PyFloat)) (i j : Nat) : Option PyFloat :=
  (m.get? i).bind (fun r => r.get? j)

/-- Pandas `corr_matrix.iloc[i, j]`: IndexError when out of bounds. -/
def iloc (m : List (List PyFloat)) (i j : Nat) : Except PyErr PyFloat :=
  match ilocO m i j with
  | some v => Except.ok v
  | none => Except.error PyErr.indexError

/-- The initial buckets: one empty list per sector, in `SECTORS` order,
then the Inter-Market bucket (`logic.py`, lines 59-62). -/
def bucketsInit : Grouped :=
  SECTORS.map (fun p => (p.1, [])) ++ [(INTER_MARKET, [])]

/-- Python `grouped[k].append(e)`: KeyError when the bucket `k` is absent. -/
def bucketAppend (g : Grouped) (k : String) (e : Entry) : Except PyErr Grouped :=
  if g.any (fun be => be.1 == k) then
    Except.ok (g.map (fun be => if be.1 == k then (be.1, be.2 ++ [e]) else be))
  else
    Except.error PyErr.keyError

/-- Python f-string `f"{asset_a} vs {asset_b}"`. -/
def pairLabel (a b : String) : String := a ++ " vs " ++ b

/-- The body of the double loop of `group_correlations` for one pair of
positions `p = (i, j)`. -/
def groupStep (assets : List String) (m : List (List PyFloat))
    (cmap : List (String × String)) (g : Grouped) (p : Nat × Nat) :
    Except PyErr Grouped :=
  match iloc m p.1 p.2 with
  | Except.error e => Except.error e
  | Except.ok val =>
    let asset_a := assets.getD p.1 NO_LABEL
    let asset_b := assets.getD p.2 NO_LABEL
    let r2 := pySquareTimes100 val
    let cat_a := dictGetD cmap asset_a OTHERS
    let cat_b := dictGetD cmap asset_b OTHERS
    let ct := classify_correlation val
    if cat_a == cat_b && !(cat_a == OTHERS) then
      bucketAppend g cat_a (pairLabel asset_a asset_b, val, r2, ct.1, ct.2)
    else if !(ct.2 == WEAK_TAG) && !(ct.2 == NULL_TAG) then
      bucketAppend g INTER_MARKET (pairLabel asset_a asset_b, val, r2, ct.1, ct.2)
    else
      Except.ok g

/-- The index pairs (i, j) with i < j < n, enumerated as the double loop
`for i in range(n): for j in range(i+1, n)` does. -/
def pairs (n : Nat) : List (Nat × Nat) :=
  (List.range n).flatMap
    (fun i => ((List.range n).filter (fun j => i < j)).map (fun j => (i, j)))

/-- Translation of `group_correlations` from `logic.py`, lines 49-85. -/
def group_correlations (assets : List String) (m : List (List PyFloat))
    (cmap : List (String × String)) : Except PyErr Grouped :=
  List.foldlM (groupStep assets m cmap) bucketsInit (pairs assets.length)

/-- The bucket of a grouped result under a name (empty when absent). -/
def bucketGet (g : Grouped) (b : String) : List Entry :=
  ((g.find? (fun be => be.1 == b)).map (fun be => be.2)).getD []

/- ---- Specification-side description of the grouping (§4.4) ---- -/

/-- Spec §4.4: the classified pair recorded for positions `p = (i, j)`. -/
def specPairEntry (assets : List String) (m : List (List PyFloat))
    (p : Nat × Nat) : Entry :=
  let v := (ilocO m p.1 p.2).getD (PyFloat.num 0)
  (pairLabel (assets.getD p.1 NO_LABEL) (assets.getD p.2 NO_LABEL), v,
    pySquareTimes100 v, (classify_correlation v).1, (classify_correlation v).2)

/-- Spec §4.4: both instruments share the same sector (defaulting to
"Others" when unmapped) and that sector is not "Others". -/
def specSameSector (cmap : List (String × String)) (a b : String) : Bool :=
  (dictGetD cmap a OTHERS == dictGetD cmap b OTHERS) &&
    !(dictGetD cmap a OTHERS == OTHERS)

/-- Spec §4.4: the bucket a pair is assigned to. -/
def specBucket (assets : List String) (cmap : List (String × String))
    (p : Nat × Nat) : String :=
  if specSameSector cmap (assets.getD p.1 NO_LABEL) (assets.getD p.2 NO_LABEL) then
    dictGetD cmap (assets.getD p.1 NO_LABEL) OTHERS
  else
    INTER_MARKET

/-- Spec §4.4: same-sector pairs are always included; other pairs only when
their tag is neither `weak` nor `null`. -/
def specIncluded (assets : List String) (m : List (List PyFloat))
    (cmap : List (String × String)) (p : Nat × Nat) : Bool :=
  specSameSector cmap (assets.getD p.1 NO_LABEL) (assets.getD p.2 NO_LABEL) ||
    (!((specPairEntry assets m p).2.2.2.2 == WEAK_TAG) &&
      !((specPairEntry assets m p).2.2.2.2 == NULL_TAG))

/-- The entries the spec places in bucket `b`, from the pair list `ps`,
in enumeration order. -/
def specList (assets : List String) (m : List (List PyFloat))
    (cmap : List (String × String)) (ps : List (Nat × Nat)) (b : String) :
    List Entry :=
  ps.filterMap
    (fun p =>
      if specBucket assets cmap p == b && specIncluded assets m cmap p then
        some (specPairEntry assets m p)
      else
        none)

/-- Spec §4.4: the whole grouped result — every taxonomy sector (even if
empty) plus the Inter-Market bucket, each holding exactly the pairs the
inclusion rule assigns to it, in enumeration order. -/
def groupedSpec (assets : List String) (m : List (List PyFloat))
    (cmap : List (String × String)) : Grouped :=
  (sectorNames ++ [INTER_MARKET]).map
    (fun b => (b, specList assets m cmap (pairs assets.length) b))

/-- A category map is well-formed when every value it can return is a
taxonomy sector name or the default "Others" (the data model of §3: a
Category Map maps instrument labels to sector names). -/
def WellFormedCatMap (cmap : List (String × String)) : Prop :=
  ∀ p ∈ cmap, p.2 ∈ sectorNames ∨ p.2 = OTHERS

/-- The matrix is square with one row and one column per asset. -/
def SquareMatrix (m : List (List PyFloat)) (n : Nat) : Prop :=
  m.length = n ∧ ∀ r ∈ m, r.length = n

/- ---- Correlation engine (`compute_correlation_matrices`, `data.py` 60-78) ---- -/

/-- One row of a price table: one optional price per instrument column. -/
abbrev PRow := List (Option ℚ)

/-- A pandas DataFrame of prices: column labels and dated rows (dates
ascending); a missing price is `none`. -/
structure PriceTable where
  cols : List String
  rows : List PRow

def SHORT_TERM_DAYS : Nat := 15

def MEDIUM_TERM_DAYS : Nat := 60

/-- The price at (row `t`, column `c`), `none` when the position is out of
range or the price is missing. -/
def cell (rows : List PRow) (t c : Nat) : Option ℚ :=
  ((rows.get? t).bind (fun r => r.get? c)).join

/-- Pandas `data.pct_change(W)`: entry (t, c) is `price[t]/price[t-W] - 1`,
undefined (`none`) for the first `W` rows and wherever either price is
missing. -/
def pctChange (W : Nat) (tb : PriceTable) : List PRow :=
  (List.range tb.rows.length).map
    (fun t =>
      (List.range tb.cols.length).map
        (fun c =>
          if W ≤ t then
            match cell tb.rows t c, cell tb.rows (t - W) c with
            | some p, some q => some (p / q - 1)
            | _, _ => none
          else none))

/-- A row with no missing value. -/
def rowComplete (r : PRow) : Bool := r.all Option.isSome

/-- Pandas `.dropna()`: keep exactly the fully-populated rows, in order. -/
def dropna (rows : List PRow) : List PRow := rows.filter rowComplete

/-- The return rows that survive `pct_change(W)` followed by `dropna()`. -/
def survivors (tb : PriceTable) (W : Nat) : List PRow :=
  dropna (pctChange W tb)

/-- Column `c` of a list of complete rows (the default 0 is never read on
complete rows). -/
def column (rows : List PRow) (c : Nat) : List ℚ :=
  rows.map (fun r => ((r.get? c).join).getD 0)

/-- The arithmetic mean of a list of rationals (0 for the empty list). -/
def meanQ (xs : List ℚ) : ℚ := xs.sum / xs.length

/-- The centered product sum `Σ (x - mean xs) * (y - mean ys)`. -/
def covQ (xs ys : List ℚ) : ℚ :=
  (List.zipWith (fun a b => (a - meanQ xs) * (b - meanQ ys)) xs ys).sum

/-- The centered square sum `Σ (x - mean xs)²`. -/
def varQ (xs : List ℚ) : ℚ := covQ xs xs

/-- The Pearson correlation coefficient of two series,
`Σ(x-x̄)(y-ȳ) / (√Σ(x-x̄)² ⋅ √Σ(y-ȳ)²)`, undefined (`none`, pandas NaN)
when either series has zero variance (constant series, or fewer than two
observations). -/
noncomputable def pearson (xs ys : List ℚ) : Option ℝ :=
  if varQ xs = 0 ∨ varQ ys = 0 then none
  else
    some ((covQ xs ys : ℝ) / (Real.sqrt (varQ xs) * Real.sqrt (varQ ys)))

/-- Entry (i, j) of the correlation matrix `data.pct_change(W).dropna().corr()`. -/
noncomputable def corrEntry (tb : PriceTable) (W i j : Nat) : Option ℝ :=
  pearson (column (survivors tb W) i) (column (survivors tb W) j)

/-- Translation of `compute_correlation_matrices` from `data.py`, lines 60-78: the short-term
and medium-term correlation matrices.  The function body has no `raise` and
no validation, and the pandas calls `pct_change` / `dropna` / `corr` are
total on any (even empty or duplicate-labelled) frame, so no error path
exists; the `Except` result records that faithfully. -/
noncomputable def compute_correlation_matrices (tb : PriceTable) :
    Except PyErr ((Nat → Nat → Option ℝ) × (Nat → Nat → Option ℝ)) :=
  Except.ok
    (fun i j => corrEntry tb SHORT_TERM_DAYS i j,
     fun i j => corrEntry tb MEDIUM_TERM_DAYS i j)

/-- Position (t, c) of a list of return rows, as a position (`none` when out
of range; `some none` when in range but undefined). -/
def pcell (rows : List PRow) (t c : Nat) : Option (Option ℚ) :=
  (rows.get? t).bind (fun r => r.get? c)

/-- The classified pair `group_correlations` records for positions `p`,
once the matrix value `v` has been read. -/
def groupEntry (assets : List String) (p : Nat × Nat) (v : PyFloat) : Entry :=
  (pairLabel (assets.getD p.1 NO_LABEL) (assets.getD p.2 NO_LABEL), v,
    pySquareTimes100 v, (classify_correlation v).1, (classify_correlation v).2)

/- ---- Concrete inputs used in boundary examples and witnesses ---- -/

def exAssets : List String := ["BTC", "ETH", "GC (Gold)"]

def exMatrix : List (List PyFloat) :=
  [ [PyFloat.num 1, PyFloat.num (mkRat 5 100), PyFloat.num (mkRat 10 100)],
    [PyFloat.num (mkRat 5 100), PyFloat.num 1, PyFloat.num (mkRat 85 100)],
    [PyFloat.num (mkRat 10 100), PyFloat.num (mkRat 85 100), PyFloat.num 1] ]

def exCmap : List (String × String) := build_category_map exAssets

/-- The grouping of `exMatrix`: the same-sector pair BTC-ETH (correlation
0.05, tag `null`) sits in the Crypto bucket, the cross-sector pair BTC-GC
(0.10, tag `null`) is filtered out, the cross-sector pair ETH-GC (0.85, tag
`pos_strong`) sits in the Inter-Market bucket. -/
def exGrouped : Grouped :=
  [ ("Stock Indices", []), ("Energies", []), ("Metals", []),
    ("Crypto",
      [("BTC vs ETH", PyFloat.num (mkRat 5 100),
        PyFloat.num (mkRat 5 100 ^ 2 * 100), "Independent (Diversify)", "null")]),
    ("Currencies", []), ("Bonds/Fixed Income", []),
    ("Agriculture (Grains)", []), ("Livestock (Meats)", []),
    (INTER_MARKET,
      [("ETH vs GC (Gold)", PyFloat.num (mkRat 85 100),
        PyFloat.num (mkRat 85 100 ^ 2 * 100), "Twins (High Risk)", "pos_strong")]) ]

def nanAssets : List String := ["ES (S&P 500)", "NQ (Nasdaq)"]

def nanMatrix : List (List PyFloat) :=
  [ [PyFloat.num 1, PyFloat.nan], [PyFloat.nan, PyFloat.num 1] ]

def nanCmap : List (String × String) := build_category_map nanAssets

/-- The grouping of `nanMatrix`: the same-sector pair with not-a-number
correlation is still shown in its sector bucket, classified as `weak`. -/
def nanGrouped : Grouped :=
  [ ("Stock Indices",
      [("ES (S&P 500) vs NQ (Nasdaq)", PyFloat.nan, PyFloat.nan,
        "Weak Positive / Noise", "weak")]),
    ("Energies", []), ("Metals", []), ("Crypto", []), ("Currencies", []),
    ("Bonds/Fixed Income", []), ("Agriculture (Grains)", []),
    ("Livestock (Meats)", []), (INTER_MARKET, []) ]

def c9Assets : List String := ["BTC", "ETH"]

/-- A 3x3 matrix: larger than the 2-element label list. -/
def c9Matrix : List (List PyFloat) :=
  [ [PyFloat.num 0, PyFloat.num 0, PyFloat.num 0],
    [PyFloat.num 0, PyFloat.num 0, PyFloat.num 0],
    [PyFloat.num 0, PyFloat.num 0, PyFloat.num 0] ]

def c9Cmap : List (String × String) := build_category_map c9Assets

/-- Two 2x2 matrices that agree only on the strict upper triangle. -/
def c10MatrixA : List (List PyFloat) :=
  [ [PyFloat.num 7, PyFloat.num 0], [PyFloat.num 9, PyFloat.num 8] ]

def c10MatrixB : List (List PyFloat) :=
  [ [PyFloat.num 1, PyFloat.num 0], [PyFloat.num 2, PyFloat.num 3] ]

def tbEmpty : PriceTable := ⟨[], []⟩

def tbDupCols : PriceTable := ⟨["A", "A"], [[some 1, some 1], [some 2, some 3]]⟩

def tbNoCols : PriceTable := ⟨[], [[], []]⟩

def tbRowsEmpty : PriceTable := ⟨["A"], []⟩

def tbShort : PriceTable := ⟨["A"], [[some 1], [some 2]]⟩

/-- Sixty-two trading days of one instrument with prices only on days 0, 1, 45,
46, 60 and 61: for both the 15-day and the 60-day window exactly the last
two rows survive, with returns 1 and 2 (nonzero variance). -/
def tb62 : PriceTable :=
  ⟨["A"],
    [[some 1], [some 1]] ++ List.replicate 43 [none] ++
      [[some 1], [some 1]] ++ List.replicate 13 [none] ++
      [[some 2], [some 3]]⟩

/-! Theorems -/

/- Numeric values of the configured thresholds, for linear arithmetic. -/

theorem twins_val : TWINS_THRESHOLD = (4 : ℚ)/5 := by
  norm_num [TWINS_THRESHOLD, Rat.mkRat_eq_div]

theorem moderate_val : MODERATE_POS_THRESHOLD = (1 : ℚ)/2 := by
  norm_num [Rat.mkRat_eq_div, MODERATE_POS_THRESHOLD]

theorem indep_low_val : INDEPENDENT_LOW = -((1 : ℚ)/5) := by
  norm_num [INDEPENDENT_LOW, Rat.mkRat_eq_div]

theorem indep_high_val : INDEPENDENT_HIGH = (1 : ℚ)/5 := by
  norm_num [INDEPENDENT_HIGH, Rat.mkRat_eq_div]

theorem weak_neg_val : WEAK_NEG_THRESHOLD = -((1 : ℚ)/2) := by
  norm_num [WEAK_NEG_THRESHOLD, Rat.mkRat_eq_div]

theorem mirror_val : MIRROR_THRESHOLD = -((4 : ℚ)/5) := by
  norm_num [MIRROR_THRESHOLD, Rat.mkRat_eq_div]

/-- C1: for every real correlation value, `classify_correlation` returns
exactly the (label, tag) pair of the §4.2 ladder evaluated top-down with
first match winning, and the boundaries are exact:
classify(0.80) is `pos_strong`, classify(0.50) is `pos_mod`, classify(0.20)
is `null`, classify(-0.80) is `neg_strong`. -/
theorem classify_correlation_matches_spec_ladder :
    (∀ v : ℚ, classify_correlation (PyFloat.num v) = specClassify v) ∧
    (classify_correlation (PyFloat.num (mkRat 80 100))).2 = "pos_strong" ∧
    (classify_correlation (PyFloat.num (mkRat 50 100))).2 = "pos_mod" ∧
    (classify_correlation (PyFloat.num (mkRat 20 100))).2 = "null" ∧
    (classify_correlation (PyFloat.num (mkRat (-80) 100))).2 = "neg_strong" := by
  refine ⟨?_, by decide, by decide, by decide, by decide⟩
  intro v
  have e1 : (0.80 : ℚ) = TWINS_THRESHOLD := by
    norm_num [TWINS_THRESHOLD, Rat.mkRat_eq_div]
  have e2 : (0.50 : ℚ) = MODERATE_POS_THRESHOLD := by
    norm_num [Rat.mkRat_eq_div, MODERATE_POS_THRESHOLD]
  have e4 : (0.20 : ℚ) = INDEPENDENT_HIGH := by
    norm_num [INDEPENDENT_HIGH, Rat.mkRat_eq_div]
  have e3 : -INDEPENDENT_HIGH = INDEPENDENT_LOW := by
    norm_num [INDEPENDENT_LOW, INDEPENDENT_HIGH, Rat.mkRat_eq_div]
  have e5 : -MODERATE_POS_THRESHOLD = WEAK_NEG_THRESHOLD := by
    norm_num [WEAK_NEG_THRESHOLD, Rat.mkRat_eq_div, MODERATE_POS_THRESHOLD]
  have e6 : -TWINS_THRESHOLD = MIRROR_THRESHOLD := by
    norm_num [MIRROR_THRESHOLD, TWINS_THRESHOLD, Rat.mkRat_eq_div]
  simp only [classify_correlation, specClassify, pyGe, pyLe, pyLt,
    Bool.and_eq_true, decide_eq_true_eq, e1, e2, e4, e3, e5, e6]
  by_cases h1 : TWINS_THRESHOLD ≤ v
  · simp only [if_pos h1]
  by_cases h2 : MODERATE_POS_THRESHOLD ≤ v
  · have h2s : MODERATE_POS_THRESHOLD ≤ v ∧ v < TWINS_THRESHOLD :=
      ⟨h2, not_le.mp h1⟩
    simp only [if_neg h1, if_pos h2, if_pos h2s]
  have h2s : ¬(MODERATE_POS_THRESHOLD ≤ v ∧ v < TWINS_THRESHOLD) :=
    fun hc => h2 hc.1
  by_cases h3 : INDEPENDENT_LOW ≤ v ∧ v ≤ INDEPENDENT_HIGH
  · simp only [if_neg h1, if_neg h2, if_neg h2s, if_pos h3]
  by_cases h4 : WEAK_NEG_THRESHOLD < v ∧ v < INDEPENDENT_LOW
  · simp only [if_neg h1, if_neg h2, if_neg h2s, if_neg h3, if_pos h4]
  by_cases h5 : MIRROR_THRESHOLD < v ∧ v ≤ WEAK_NEG_THRESHOLD
  · simp only [if_neg h1, if_neg h2, if_neg h2s, if_neg h3, if_neg h4, if_pos h5]
  by_cases h6 : v ≤ MIRROR_THRESHOLD
  · simp only [if_neg h1, if_neg h2, if_neg h2s, if_neg h3, if_neg h4, if_neg h5,
      if_pos h6]
  simp only [if_neg h1, if_neg h2, if_neg h2s, if_neg h3, if_neg h4, if_neg h5,
    if_neg h6]

/-- C8: `classify_correlation` is total over the reals, its tag always lies
in the closed 7-element set, every value above 1 is classified `pos_strong`
and every value below -1 is classified `neg_strong`. -/
theorem classify_correlation_total_and_saturating :
    ∀ v : ℚ,
      (classify_correlation (PyFloat.num v)).2 ∈
        ["pos_strong", "pos_mod", "null", "neg_weak", "neg_mod", "neg_strong",
          "weak"] ∧
      (1 < v → (classify_correlation (PyFloat.num v)).2 = "pos_strong") ∧
      (v < -1 → (classify_correlation (PyFloat.num v)).2 = "neg_strong") := by
  intro v
  have t1 := twins_val
  have t2 := moderate_val
  have t3 := indep_low_val
  have t4 := indep_high_val
  have t5 := weak_neg_val
  have t6 := mirror_val
  simp only [classify_correlation, pyGe, pyLe, pyLt, Bool.and_eq_true,
    decide_eq_true_eq]
  split_ifs with h1 h2 h3 h4 h5 h6 <;>
    refine ⟨by simp, fun hv => ?_, fun hv => ?_⟩ <;>
    first
      | rfl
      | (exfalso; linarith [not_le.mp h1])
      | (exfalso; linarith)

/- ---- Grouping lemmas ---- -/

theorem specList_nil (assets : List String) (m : List (List PyFloat))
    (cmap : List (String × String)) (b : String) :
    specList assets m cmap [] b = [] := rfl

theorem specList_cons (assets : List String) (m : List (List PyFloat))
    (cmap : List (String × String)) (p : Nat × Nat) (ps : List (Nat × Nat))
    (b : String) :
    specList assets m cmap (p :: ps) b =
      (if specBucket assets cmap p == b && specIncluded assets m cmap p then
        [specPairEntry assets m p]
      else []) ++ specList assets m cmap ps b := by
  simp only [specList, List.filterMap_cons]
  by_cases h : (specBucket assets cmap p == b && specIncluded assets m cmap p) = true
  · rw [if_pos h, if_pos h]
    rfl
  · rw [if_neg h, if_neg h]
    rfl

/-- The bucket-append map does not change the keys of the buckets. -/
theorem any_key_bucketMap (g : Grouped) (k : String) (e : Entry) (s : String) :
    ((g.map (fun be => if be.1 == k then (be.1, be.2 ++ [e]) else be)).any
        (fun be => be.1 == s)) =
      g.any (fun be => be.1 == s) := by
  induction g with
  | nil => rfl
  | cons hd tl ih =>
    simp only [List.map_cons, List.any_cons, ih]
    by_cases h : (hd.1 == k) = true
    · rw [if_pos h]
    · rw [if_neg h]

/-- A well-formed category map only ever yields a taxonomy sector or
"Others". -/
theorem dictGetD_wf (cmap : List (String × String))
    (hwf : WellFormedCatMap cmap) (a : String) :
    dictGetD cmap a OTHERS ∈ sectorNames ∨ dictGetD cmap a OTHERS = OTHERS := by
  unfold dictGetD lookupStr
  cases hfind : cmap.find? (fun p => p.1 == a) with
  | none => simp
  | some p =>
    have hmem := List.mem_of_find?_eq_some hfind
    simpa using hwf p hmem

theorem except_bind_ok {α β : Type} (x : α) (f : α → Except PyErr β) :
    (Except.ok x >>= f) = f x := rfl

theorem specPairEntry_eq (assets : List String) (m : List (List PyFloat))
    (p : Nat × Nat) (v : PyFloat) (hv : ilocO m p.1 p.2 = some v) :
    specPairEntry assets m p = groupEntry assets p v := by
  simp [specPairEntry, groupEntry, hv]

theorem groupStep_ok (assets : List String) (m : List (List PyFloat))
    (cmap : List (String × String)) (g : Grouped) (p : Nat × Nat) (v : PyFloat)
    (hv : ilocO m p.1 p.2 = some v) :
    groupStep assets m cmap g p =
      (if specSameSector cmap (assets.getD p.1 NO_LABEL) (assets.getD p.2 NO_LABEL) then
        bucketAppend g (dictGetD cmap (assets.getD p.1 NO_LABEL) OTHERS)
          (groupEntry assets p v)
      else if !((classify_correlation v).2 == WEAK_TAG) &&
          !((classify_correlation v).2 == NULL_TAG) then
        bucketAppend g INTER_MARKET (groupEntry assets p v)
      else Except.ok g) := by
  have h1 : iloc m p.1 p.2 = Except.ok v := by
    unfold iloc
    rw [hv]
  unfold groupStep
  rw [h1]
  rfl

/-- The key lemma: starting from buckets `g` that contain every sector key
and the Inter-Market key, folding the loop body over any pair list whose
matrix entries all exist appends to each bucket exactly the entries the
specification's rule assigns to it, in order. -/
theorem foldlM_groupStep_spec (assets : List String) (m : List (List PyFloat))
    (cmap : List (String × String)) (hwf : WellFormedCatMap cmap)
    (ps : List (Nat × Nat)) :
    ∀ g : Grouped,
      (∀ p ∈ ps, (ilocO m p.1 p.2).isSome = true) →
      (∀ s ∈ sectorNames, g.any (fun be => be.1 == s) = true) →
      g.any (fun be => be.1 == INTER_MARKET) = true →
      List.foldlM (groupStep assets m cmap) g ps =
        Except.ok
          (g.map (fun be => (be.1, be.2 ++ specList assets m cmap ps be.1))) := by
  induction ps with
  | nil =>
    intro g _ _ _
    simp only [List.foldlM_nil, specList_nil, List.append_nil, Prod.mk.eta]
    rw [List.map_id']
    rfl
  | cons p ps ih =>
    intro g hacc hsec hint
    obtain ⟨v, hv⟩ := Option.isSome_iff_exists.mp (hacc p (List.mem_cons_self p ps))
    have haccT : ∀ q ∈ ps, (ilocO m q.1 q.2).isSome = true :=
      fun q hq => hacc q (List.mem_cons_of_mem p hq)
    have hentry := specPairEntry_eq assets m p v hv
    rw [List.foldlM_cons, groupStep_ok assets m cmap g p v hv]
    by_cases hsame :
        specSameSector cmap (assets.getD p.1 NO_LABEL) (assets.getD p.2 NO_LABEL) = true
    · -- same-sector branch: append to the shared sector's bucket
      have hsame' := hsame
      unfold specSameSector at hsame'
      rw [Bool.and_eq_true] at hsame'
      obtain ⟨hab, hno⟩ := hsame'
      rw [Bool.not_eq_true'] at hno
      have hnoO : dictGetD cmap (assets.getD p.1 NO_LABEL) OTHERS ≠ OTHERS :=
        ne_of_beq_false hno
      have hcatA : dictGetD cmap (assets.getD p.1 NO_LABEL) OTHERS ∈ sectorNames := by
        rcases dictGetD_wf cmap hwf (assets.getD p.1 NO_LABEL) with h | h
        · exact h
        · exact absurd h hnoO
      have hkey : g.any
          (fun be => be.1 == dictGetD cmap (assets.getD p.1 NO_LABEL) OTHERS) = true :=
        hsec _ hcatA
      rw [if_pos hsame]
      unfold bucketAppend
      rw [if_pos hkey, except_bind_ok]
      rw [ih _ haccT
        (fun s hs => by rw [any_key_bucketMap]; exact hsec s hs)
        (by rw [any_key_bucketMap]; exact hint)]
      have hbucket : specBucket assets cmap p =
          dictGetD cmap (assets.getD p.1 NO_LABEL) OTHERS := by
        unfold specBucket
        rw [if_pos hsame]
      have hincl : specIncluded assets m cmap p = true := by
        unfold specIncluded
        rw [hsame]
        rfl
      congr 1
      rw [List.map_map]
      apply List.map_congr_left
      intro be _
      simp only [Function.comp_apply]
      rw [specList_cons, hbucket, hincl, hentry]
      by_cases hbe : (be.1 == dictGetD cmap (assets.getD p.1 NO_LABEL) OTHERS) = true
      · have hbeq : be.1 = dictGetD cmap (assets.getD p.1 NO_LABEL) OTHERS :=
          eq_of_beq hbe
        rw [if_pos hbe]
        simp [hbeq, List.append_assoc]
      · rw [if_neg hbe]
        have hne : (dictGetD cmap (assets.getD p.1 NO_LABEL) OTHERS == be.1) = false := by
          have h1 : be.1 ≠ dictGetD cmap (assets.getD p.1 NO_LABEL) OTHERS :=
            fun h => hbe (beq_iff_eq.mpr h)
          exact beq_eq_false_iff_ne.mpr (fun h => h1 h.symm)
        have hcond : ((dictGetD cmap (assets.getD p.1 NO_LABEL) OTHERS == be.1) &&
            true) = false := by
          rw [Bool.and_true, hne]
        rw [hcond, if_neg (by simp), List.nil_append]
    · -- not a same-sector pair
      rw [if_neg hsame]
      have hsameF : specSameSector cmap (assets.getD p.1 NO_LABEL)
          (assets.getD p.2 NO_LABEL) = false := Bool.eq_false_iff.mpr hsame
      have hbucket : specBucket assets cmap p = INTER_MARKET := by
        unfold specBucket
        rw [if_neg hsame]
      have htagE : (specPairEntry assets m p).2.2.2.2 = (classify_correlation v).2 := by
        rw [hentry]
        rfl
      by_cases htag : (!((classify_correlation v).2 == WEAK_TAG) &&
          !((classify_correlation v).2 == NULL_TAG)) = true
      · -- significant cross-sector pair: appended to the Inter-Market bucket
        rw [if_pos htag]
        have hincl : specIncluded assets m cmap p = true := by
          unfold specIncluded
          rw [hsameF, htagE, htag]
          rfl
        unfold bucketAppend
        rw [if_pos hint, except_bind_ok]
        rw [ih _ haccT
          (fun s hs => by rw [any_key_bucketMap]; exact hsec s hs)
          (by rw [any_key_bucketMap]; exact hint)]
        congr 1
        rw [List.map_map]
        apply List.map_congr_left
        intro be _
        simp only [Function.comp_apply]
        rw [specList_cons, hbucket, hincl, hentry]
        by_cases hbe : (be.1 == INTER_MARKET) = true
        · have hbeq : be.1 = INTER_MARKET := eq_of_beq hbe
          rw [if_pos hbe]
          simp [hbeq, List.append_assoc]
        · rw [if_neg hbe]
          have hne : (INTER_MARKET == be.1) = false := by
            have h1 : be.1 ≠ INTER_MARKET := fun h => hbe (beq_iff_eq.mpr h)
            exact beq_eq_false_iff_ne.mpr (fun h => h1 h.symm)
          have hcond : ((INTER_MARKET == be.1) && true) = false := by
            rw [Bool.and_true, hne]
          rw [hcond, if_neg (by simp), List.nil_append]
      · -- insignificant cross-sector pair: skipped
        rw [if_neg htag]
        have htagF : (!((classify_correlation v).2 == WEAK_TAG) &&
            !((classify_correlation v).2 == NULL_TAG)) = false :=
          Bool.eq_false_iff.mpr htag
        have hincl : specIncluded assets m cmap p = false := by
          unfold specIncluded
          rw [hsameF, htagE, htagF]
          rfl
        rw [except_bind_ok, ih g haccT hsec hint]
        congr 1
        apply List.map_congr_left
        intro be _
        rw [specList_cons, hincl, Bool.and_false, if_neg (by simp), List.nil_append]

/-- The initial buckets contain every sector key. -/
theorem bucketsInit_sector_keys :
    ∀ s ∈ sectorNames, bucketsInit.any (fun be => be.1 == s) = true := by
  intro s hs
  rw [List.any_eq_true]
  obtain ⟨q, hq, rfl⟩ := List.mem_map.mp hs
  refine ⟨(q.1, []), ?_, by simp⟩
  unfold bucketsInit
  rw [List.mem_append]
  exact Or.inl (List.mem_map.mpr ⟨q, hq, rfl⟩)

/-- The initial buckets contain the Inter-Market key. -/
theorem bucketsInit_inter_key :
    bucketsInit.any (fun be => be.1 == INTER_MARKET) = true := by
  rw [List.any_eq_true]
  exact ⟨(INTER_MARKET, []), by simp [bucketsInit], by simp⟩

/-- The function `group_correlations` computes exactly the grouping the specification's
§4.4 rule describes, whenever every enumerated matrix entry exists and the
category map is well-formed. -/
theorem group_correlations_eq_spec (assets : List String)
    (m : List (List PyFloat)) (cmap : List (String × String))
    (hwf : WellFormedCatMap cmap)
    (hacc : ∀ p ∈ pairs assets.length, (ilocO m p.1 p.2).isSome = true) :
    group_correlations assets m cmap = Except.ok (groupedSpec assets m cmap) := by
  unfold group_correlations
  rw [foldlM_groupStep_spec assets m cmap hwf (pairs assets.length) bucketsInit
    hacc bucketsInit_sector_keys bucketsInit_inter_key]
  congr 1

/-- In a square matrix of size `n`, every position (i, j) with i < j < n
exists. -/
theorem ilocO_isSome_of_square (m : List (List PyFloat)) (n : Nat)
    (hsq : SquareMatrix m n) (i j : Nat) (hij : i < j) (hj : j < n) :
    (ilocO m i j).isSome = true := by
  obtain ⟨hlen, hrow⟩ := hsq
  have hi : i < m.length := by omega
  cases hr : m.get? i with
  | none =>
    rw [List.get?_eq_none] at hr
    omega
  | some r =>
    have hrm : r ∈ m := List.get?_mem hr
    have hjr : j < r.length := by
      rw [hrow r hrm]
      omega
    cases hc : r.get? j with
    | none =>
      rw [List.get?_eq_none] at hc
      omega
    | some v =>
      unfold ilocO
      rw [hr, Option.some_bind, hc]
      rfl

/-- Membership in the enumerated pair list. -/
theorem mem_pairs (n i j : Nat) : (i, j) ∈ pairs n ↔ i < j ∧ j < n := by
  unfold pairs
  simp only [List.mem_flatMap, List.mem_map, List.mem_filter, List.mem_range]
  constructor
  · rintro ⟨a, ha, b, ⟨⟨hbn, hab⟩, heq⟩⟩
    obtain ⟨rfl, rfl⟩ := Prod.mk.injEq .. ▸ And.intro (congrArg Prod.fst heq)
      (congrArg Prod.snd heq)
    exact ⟨by simpa using hab, hbn⟩
  · rintro ⟨hij, hj⟩
    exact ⟨i, by omega, j, ⟨⟨hj, by simpa using hij⟩, rfl⟩⟩

/-- Folding the loop body succeeds exactly when every enumerated matrix
entry exists (given buckets holding all keys and a well-formed map). -/
theorem foldlM_groupStep_isOk (assets : List String) (m : List (List PyFloat))
    (cmap : List (String × String)) (hwf : WellFormedCatMap cmap)
    (ps : List (Nat × Nat)) :
    ∀ g : Grouped,
      (∀ s ∈ sectorNames, g.any (fun be => be.1 == s) = true) →
      g.any (fun be => be.1 == INTER_MARKET) = true →
      (List.foldlM (groupStep assets m cmap) g ps).isOk =
        ps.all (fun p => (ilocO m p.1 p.2).isSome) := by
  induction ps with
  | nil =>
    intro g _ _
    rfl
  | cons p ps ih =>
    intro g hsec hint
    rw [List.foldlM_cons, List.all_cons]
    cases hv : ilocO m p.1 p.2 with
    | none =>
      have hstep : groupStep assets m cmap g p = Except.error PyErr.indexError := by
        unfold groupStep iloc
        rw [hv]
      rw [hstep]
      rfl
    | some v =>
      rw [groupStep_ok assets m cmap g p v hv]
      by_cases hsame :
          specSameSector cmap (assets.getD p.1 NO_LABEL) (assets.getD p.2 NO_LABEL) = true
      · have hsame' := hsame
        unfold specSameSector at hsame'
        rw [Bool.and_eq_true] at hsame'
        obtain ⟨hab, hno⟩ := hsame'
        rw [Bool.not_eq_true'] at hno
        have hnoO : dictGetD cmap (assets.getD p.1 NO_LABEL) OTHERS ≠ OTHERS :=
          ne_of_beq_false hno
        have hcatA : dictGetD cmap (assets.getD p.1 NO_LABEL) OTHERS ∈ sectorNames := by
          rcases dictGetD_wf cmap hwf (assets.getD p.1 NO_LABEL) with h | h
          · exact h
          · exact absurd h hnoO
        rw [if_pos hsame]
        unfold bucketAppend
        rw [if_pos (hsec _ hcatA), except_bind_ok]
        rw [ih _
          (fun s hs => by rw [any_key_bucketMap]; exact hsec s hs)
          (by rw [any_key_bucketMap]; exact hint)]
        rfl
      · rw [if_neg hsame]
        by_cases htag : (!((classify_correlation v).2 == WEAK_TAG) &&
            !((classify_correlation v).2 == NULL_TAG)) = true
        · rw [if_pos htag]
          unfold bucketAppend
          rw [if_pos hint, except_bind_ok]
          rw [ih _
            (fun s hs => by rw [any_key_bucketMap]; exact hsec s hs)
            (by rw [any_key_bucketMap]; exact hint)]
          rfl
        · rw [if_neg htag, except_bind_ok, ih g hsec hint]
          rfl

theorem find?_map_names (names : List String) (L : String → List Entry)
    (b : String) (hb : b ∈ names) :
    (names.map (fun x => (x, L x))).find? (fun be => be.1 == b) = some (b, L b) := by
  induction names with
  | nil => cases hb
  | cons n ns ih =>
    rw [List.map_cons]
    by_cases h : n = b
    · subst h
      exact List.find?_cons_of_pos _ (by simp)
    · rw [List.find?_cons_of_neg _ (by simp [h])]
      refine ih ?_
      rcases List.mem_cons.mp hb with h1 | h1
      · exact absurd h1.symm h
      · exact h1

theorem bucketGet_map_names (names : List String) (L : String → List Entry)
    (b : String) (hb : b ∈ names) :
    bucketGet (names.map (fun x => (x, L x))) b = L b := by
  unfold bucketGet
  rw [find?_map_names names L b hb]
  rfl

theorem bucketGet_groupedSpec (assets : List String) (m : List (List PyFloat))
    (cmap : List (String × String)) (b : String)
    (hb : b ∈ sectorNames ++ [INTER_MARKET]) :
    bucketGet (groupedSpec assets m cmap) b =
      specList assets m cmap (pairs assets.length) b := by
  unfold groupedSpec
  exact bucketGet_map_names _ _ b hb

/-- Every entry the specification places in the Inter-Market bucket has a
tag that is neither `weak` nor `null`. -/
theorem inter_bucket_tags (assets : List String) (m : List (List PyFloat))
    (cmap : List (String × String)) (hwf : WellFormedCatMap cmap)
    (ps : List (Nat × Nat)) :
    ∀ e ∈ specList assets m cmap ps INTER_MARKET,
      ¬(e.2.2.2.2 = WEAK_TAG) ∧ ¬(e.2.2.2.2 = NULL_TAG) := by
  intro e he
  obtain ⟨p, hp, heq⟩ := List.mem_filterMap.mp he
  by_cases hcond : (specBucket assets cmap p == INTER_MARKET &&
      specIncluded assets m cmap p) = true
  · rw [if_pos hcond] at heq
    rw [Bool.and_eq_true] at hcond
    obtain ⟨hbk, hinc⟩ := hcond
    have hss : specSameSector cmap (assets.getD p.1 NO_LABEL)
        (assets.getD p.2 NO_LABEL) = false := by
      by_cases h : specSameSector cmap (assets.getD p.1 NO_LABEL)
          (assets.getD p.2 NO_LABEL) = true
      · exfalso
        have hb : specBucket assets cmap p =
            dictGetD cmap (assets.getD p.1 NO_LABEL) OTHERS := by
          unfold specBucket
          rw [if_pos h]
        have hcat : dictGetD cmap (assets.getD p.1 NO_LABEL) OTHERS = INTER_MARKET := by
          have h2 := eq_of_beq hbk
          rw [hb] at h2
          exact h2
        rcases dictGetD_wf cmap hwf (assets.getD p.1 NO_LABEL) with hmem | ho
        · rw [hcat] at hmem
          exact absurd hmem (by decide)
        · rw [hcat] at ho
          exact absurd ho (by decide)
      · exact Bool.eq_false_iff.mpr h
    have hinc' : (!((specPairEntry assets m p).2.2.2.2 == WEAK_TAG) &&
        !((specPairEntry assets m p).2.2.2.2 == NULL_TAG)) = true := by
      unfold specIncluded at hinc
      rw [hss] at hinc
      simpa using hinc
    rw [Bool.and_eq_true] at hinc'
    obtain ⟨hw, hn⟩ := hinc'
    rw [Bool.not_eq_true'] at hw hn
    injection heq with h
    subst h
    exact ⟨ne_of_beq_false hw, ne_of_beq_false hn⟩
  · rw [if_neg hcond] at heq
    cases heq

/-- C2: the general bucketing rule (same-sector pairs always shown in their
sector bucket; cross-sector pairs shown in Inter-Market exactly when their
tag is neither `weak` nor `null`), plus the concrete boundary examples. -/
theorem group_correlations_follows_grouping_rule :
    (∀ (assets : List String) (m : List (List PyFloat))
        (cmap : List (String × String)),
      SquareMatrix m assets.length → WellFormedCatMap cmap →
      group_correlations assets m cmap = Except.ok (groupedSpec assets m cmap)) ∧
    group_correlations exAssets exMatrix exCmap = Except.ok exGrouped := by
  constructor
  · intro assets m cmap hsq hwf
    refine group_correlations_eq_spec assets m cmap hwf (fun p hp => ?_)
    obtain ⟨h1, h2⟩ := (mem_pairs assets.length p.1 p.2).mp hp
    exact ilocO_isSome_of_square m assets.length hsq p.1 p.2 h1 h2
  · rfl

/-- C3 counterexample: a same-sector pair whose correlation entry is
not-a-number is NOT excluded from display: it appears in its sector bucket
(classified "Weak Positive / Noise", tag `weak`). -/
theorem nan_pair_shown_in_sector_bucket :
    group_correlations nanAssets nanMatrix nanCmap = Except.ok nanGrouped ∧
    ("ES (S&P 500) vs NQ (Nasdaq)", PyFloat.nan, PyFloat.nan,
        "Weak Positive / Noise", "weak") ∈
      bucketGet nanGrouped ("Stock Indices") := by
  exact ⟨rfl, by decide⟩

/-- C3 amended: grouping never raises on a not-a-number entry; the
not-a-number pair is classified `weak` and therefore excluded from the
Inter-Market bucket, but a same-sector not-a-number pair still appears in
its sector bucket. -/
theorem nan_pairs_grouping :
    ∀ (assets : List String) (m : List (List PyFloat))
      (cmap : List (String × String)) (i j : Nat),
      SquareMatrix m assets.length → WellFormedCatMap cmap →
      i < j → j < assets.length → ilocO m i j = some PyFloat.nan →
      ∃ g, group_correlations assets m cmap = Except.ok g ∧
        (classify_correlation PyFloat.nan).2 = WEAK_TAG ∧
        (∀ e ∈ bucketGet g INTER_MARKET,
          ¬(e.2.2.2.2 = WEAK_TAG) ∧ ¬(e.2.2.2.2 = NULL_TAG)) ∧
        (specSameSector cmap (assets.getD i NO_LABEL) (assets.getD j NO_LABEL) = true →
          specPairEntry assets m (i, j) ∈
            bucketGet g (dictGetD cmap (assets.getD i NO_LABEL) OTHERS)) := by
  intro assets m cmap i j hsq hwf hij hj _
  have hacc : ∀ p ∈ pairs assets.length, (ilocO m p.1 p.2).isSome = true := by
    intro p hp
    obtain ⟨h1, h2⟩ := (mem_pairs assets.length p.1 p.2).mp hp
    exact ilocO_isSome_of_square m assets.length hsq p.1 p.2 h1 h2
  refine ⟨groupedSpec assets m cmap,
    group_correlations_eq_spec assets m cmap hwf hacc, rfl, ?_, ?_⟩
  · rw [bucketGet_groupedSpec assets m cmap INTER_MARKET (by simp)]
    exact inter_bucket_tags assets m cmap hwf _
  · intro hss
    have hss' := hss
    unfold specSameSector at hss'
    rw [Bool.and_eq_true] at hss'
    obtain ⟨hab, hno⟩ := hss'
    rw [Bool.not_eq_true'] at hno
    have hcatA : dictGetD cmap (assets.getD i NO_LABEL) OTHERS ∈ sectorNames := by
      rcases dictGetD_wf cmap hwf (assets.getD i NO_LABEL) with h | h
      · exact h
      · exact absurd h (ne_of_beq_false hno)
    rw [bucketGet_groupedSpec assets m cmap _
      (by rw [List.mem_append]; exact Or.inl hcatA)]
    apply List.mem_filterMap.mpr
    refine ⟨(i, j), (mem_pairs assets.length i j).mpr ⟨hij, hj⟩, ?_⟩
    have hbk : specBucket assets cmap (i, j) =
        dictGetD cmap (assets.getD i NO_LABEL) OTHERS := by
      unfold specBucket
      rw [if_pos hss]
    have hincl : specIncluded assets m cmap (i, j) = true := by
      unfold specIncluded
      rw [show specSameSector cmap (assets.getD (i, j).1 NO_LABEL)
        (assets.getD (i, j).2 NO_LABEL) = true from hss]
      rfl
    rw [hbk, hincl, if_pos (by simp)]

/-- C3 amended, witnessed at the concrete not-a-number example. -/
theorem nan_pairs_grouping_witness :
    SquareMatrix nanMatrix nanAssets.length ∧ WellFormedCatMap nanCmap ∧
    (0 : Nat) < 1 ∧ 1 < nanAssets.length ∧
    ilocO nanMatrix 0 1 = some PyFloat.nan ∧
    (∃ g, group_correlations nanAssets nanMatrix nanCmap = Except.ok g ∧
      (classify_correlation PyFloat.nan).2 = WEAK_TAG ∧
      (∀ e ∈ bucketGet g INTER_MARKET,
        ¬(e.2.2.2.2 = WEAK_TAG) ∧ ¬(e.2.2.2.2 = NULL_TAG)) ∧
      (specSameSector nanCmap (nanAssets.getD 0 NO_LABEL)
          (nanAssets.getD 1 NO_LABEL) = true →
        specPairEntry nanAssets nanMatrix (0, 1) ∈
          bucketGet g (dictGetD nanCmap (nanAssets.getD 0 NO_LABEL) OTHERS))) :=
  ⟨by unfold SquareMatrix; decide, by unfold WellFormedCatMap; decide,
    by decide, by decide, by decide,
    nan_pairs_grouping nanAssets nanMatrix nanCmap 0 1
      (by unfold SquareMatrix; decide) (by unfold WellFormedCatMap; decide)
      (by decide) (by decide) (by decide)⟩

/-- Folding the loop body over pair lists reads the matrix only through the
enumerated positions. -/
theorem foldlM_groupStep_congr (assets : List String)
    (cmap : List (String × String)) (m1 m2 : List (List PyFloat)) :
    ∀ ps : List (Nat × Nat),
      (∀ p ∈ ps, ilocO m1 p.1 p.2 = ilocO m2 p.1 p.2) →
      ∀ g : Grouped,
        List.foldlM (groupStep assets m1 cmap) g ps =
          List.foldlM (groupStep assets m2 cmap) g ps := by
  intro ps
  induction ps with
  | nil =>
    intro _ g
    rfl
  | cons p ps ih =>
    intro h g
    rw [List.foldlM_cons, List.foldlM_cons]
    have hstep : groupStep assets m1 cmap g p = groupStep assets m2 cmap g p := by
      unfold groupStep iloc
      rw [h p (List.mem_cons_self p ps)]
    rw [hstep]
    cases hres : groupStep assets m2 cmap g p with
    | error e => rfl
    | ok g2 =>
      rw [except_bind_ok, except_bind_ok]
      exact ih (fun q hq => h q (List.mem_cons_of_mem p hq)) g2

/-- C10: the grouping depends only on the strictly upper-triangular entries
of the matrix — two square matrices agreeing at every (i, j) with i < j
produce identical groupings. -/
theorem group_correlations_reads_only_upper_triangle :
    ∀ (assets : List String) (m1 m2 : List (List PyFloat))
      (cmap : List (String × String)),
      SquareMatrix m1 assets.length → SquareMatrix m2 assets.length →
      (∀ j, j < assets.length → ∀ i, i < j → ilocO m1 i j = ilocO m2 i j) →
      group_correlations assets m1 cmap = group_correlations assets m2 cmap := by
  intro assets m1 m2 cmap _ _ hagree
  unfold group_correlations
  apply foldlM_groupStep_congr assets cmap m1 m2 (pairs assets.length)
  intro p hp
  obtain ⟨h1, h2⟩ := (mem_pairs assets.length p.1 p.2).mp hp
  exact hagree p.2 h2 p.1 h1

/-- C10, witnessed on two 2x2 matrices that differ on the diagonal and the
lower triangle but agree at (0, 1). -/
theorem group_correlations_upper_triangle_witness :
    SquareMatrix c10MatrixA c9Assets.length ∧
    SquareMatrix c10MatrixB c9Assets.length ∧
    (∀ j, j < c9Assets.length → ∀ i, i < j →
      ilocO c10MatrixA i j = ilocO c10MatrixB i j) ∧
    group_correlations c9Assets c10MatrixA c9Cmap =
      group_correlations c9Assets c10MatrixB c9Cmap :=
  ⟨by unfold SquareMatrix; decide, by unfold SquareMatrix; decide, by decide,
    group_correlations_reads_only_upper_triangle c9Assets c10MatrixA c10MatrixB
      c9Cmap (by unfold SquareMatrix; decide) (by unfold SquareMatrix; decide)
      (by decide)⟩

/-- C9 amended: with a well-formed category map, grouping returns without
raising exactly when every read position (i, j) with i < j < n exists in
the matrix; the matrix being larger than the label list is not an error. -/
theorem group_correlations_isOk_iff :
    ∀ (assets : List String) (m : List (List PyFloat))
      (cmap : List (String × String)),
      WellFormedCatMap cmap →
      ((group_correlations assets m cmap).isOk = true ↔
        ∀ j, j < assets.length → ∀ i, i < j → (ilocO m i j).isSome = true) := by
  intro assets m cmap hwf
  unfold group_correlations
  rw [foldlM_groupStep_isOk assets m cmap hwf (pairs assets.length) bucketsInit
    bucketsInit_sector_keys bucketsInit_inter_key]
  rw [List.all_eq_true]
  constructor
  · intro h j hj i hij
    exact h (i, j) ((mem_pairs assets.length i j).mpr ⟨hij, hj⟩)
  · intro h p hp
    obtain ⟨h1, h2⟩ := (mem_pairs assets.length p.1 p.2).mp hp
    exact h p.2 h2 p.1 h1

/-- C9 counterexample: a 3x3 matrix with only 2 labels — dimensions
inconsistent with the label count — does NOT make `group_correlations`
fail; it returns a grouping. -/
theorem oversized_matrix_grouping_ok :
    (group_correlations c9Assets c9Matrix c9Cmap).isOk = true ∧
    c9Assets.length = 2 ∧ c9Matrix.length = 3 ∧
    (∀ r ∈ c9Matrix, r.length = 3) := by
  exact ⟨rfl, rfl, rfl, by decide⟩

/-- C9 amended, witnessed at a concrete well-formed category map. -/
theorem group_correlations_isOk_iff_witness :
    WellFormedCatMap c9Cmap ∧
    ((group_correlations c9Assets c9Matrix c9Cmap).isOk = true ↔
      ∀ j, j < c9Assets.length → ∀ i, i < j →
        (ilocO c9Matrix i j).isSome = true) :=
  ⟨by unfold WellFormedCatMap; decide,
    group_correlations_isOk_iff c9Assets c9Matrix c9Cmap
      (by unfold WellFormedCatMap; decide)⟩

/- ---- Correlation engine lemmas ---- -/

theorem zipWith_self_eq_map (f : ℚ → ℚ → ℚ) (xs : List ℚ) :
    List.zipWith f xs xs = xs.map (fun a => f a a) := by
  induction xs with
  | nil => rfl
  | cons a l ih => simp [ih]

theorem covQ_comm (xs ys : List ℚ) : covQ xs ys = covQ ys xs := by
  unfold covQ
  rw [List.zipWith_comm]
  have hf : (fun b a => (a - meanQ xs) * (b - meanQ ys)) =
      (fun a b => (a - meanQ ys) * (b - meanQ xs)) := by
    funext b a
    ring
  rw [hf]

theorem varQ_nonneg (xs : List ℚ) : 0 ≤ varQ xs := by
  unfold varQ covQ
  rw [zipWith_self_eq_map]
  apply List.sum_nonneg
  intro x hx
  obtain ⟨a, _, rfl⟩ := List.mem_map.mp hx
  exact mul_self_nonneg _

/-- The Pearson coefficient is symmetric in its two series. -/
theorem pearson_comm (xs ys : List ℚ) : pearson xs ys = pearson ys xs := by
  unfold pearson
  by_cases h : varQ xs = 0 ∨ varQ ys = 0
  · rw [if_pos h, if_pos (Or.symm h)]
  · rw [if_neg h, if_neg (fun hc => h (Or.symm hc))]
    rw [covQ_comm, mul_comm]

/-- The Pearson coefficient of a series with itself is exactly 1 whenever
the series has nonzero variance. -/
theorem pearson_self (xs : List ℚ) (h : varQ xs ≠ 0) :
    pearson xs xs = some 1 := by
  unfold pearson
  rw [if_neg (fun hc => hc.elim h h)]
  congr 1
  have hnn : (0 : ℝ) ≤ (varQ xs : ℝ) := by
    exact_mod_cast varQ_nonneg xs
  rw [show covQ xs xs = varQ xs from rfl, Real.mul_self_sqrt hnn,
    div_self (by exact_mod_cast h)]

/-- C6: both matrices returned by `compute_correlation_matrices` are
symmetric, and each diagonal entry whose return series has nonzero variance
is exactly 1. -/
theorem compute_correlation_matrices_symm_diag :
    ∀ (tb : PriceTable) (M1 M2 : Nat → Nat → Option ℝ),
      compute_correlation_matrices tb = Except.ok (M1, M2) →
      (∀ i j, M1 i j = M1 j i ∧ M2 i j = M2 j i) ∧
      (∀ i, varQ (column (survivors tb SHORT_TERM_DAYS) i) ≠ 0 →
        M1 i i = some 1) ∧
      (∀ i, varQ (column (survivors tb MEDIUM_TERM_DAYS) i) ≠ 0 →
        M2 i i = some 1) := by
  intro tb M1 M2 h
  unfold compute_correlation_matrices at h
  injection h with hpair
  have h1 : (fun i j => corrEntry tb SHORT_TERM_DAYS i j) = M1 :=
    congrArg Prod.fst hpair
  have h2 : (fun i j => corrEntry tb MEDIUM_TERM_DAYS i j) = M2 :=
    congrArg Prod.snd hpair
  subst h1 h2
  refine ⟨fun i j => ⟨pearson_comm _ _, pearson_comm _ _⟩,
    fun i hi => ?_, fun i hi => ?_⟩
  · exact pearson_self _ hi
  · exact pearson_self _ hi

/-- C4 counterexample: on an empty table, a table with rows but no columns,
and a table with duplicate column labels, the correlation engine does NOT
fail — it returns a pair of matrices. -/
theorem compute_malformed_returns_matrices :
    (compute_correlation_matrices tbEmpty).isOk = true ∧
    (compute_correlation_matrices tbNoCols).isOk = true ∧
    (compute_correlation_matrices tbDupCols).isOk = true :=
  ⟨rfl, rfl, rfl⟩

/-- C4 amended: `compute_correlation_matrices` performs no input validation
and never raises; on a table with no rows every entry of both returned
matrices is undefined. -/
theorem compute_correlation_matrices_total :
    ∀ tb : PriceTable,
      (compute_correlation_matrices tb).isOk = true ∧
      (tb.rows = [] → ∀ i j,
        corrEntry tb SHORT_TERM_DAYS i j = none ∧
        corrEntry tb MEDIUM_TERM_DAYS i j = none) := by
  intro tb
  refine ⟨rfl, fun hrows i j => ?_⟩
  have hsurv : ∀ W, survivors tb W = [] := by
    intro W
    unfold survivors dropna pctChange
    rw [hrows]
    rfl
  constructor <;>
    · unfold corrEntry pearson
      rw [hsurv]
      have h0 : varQ (column ([] : List PRow) i) = 0 := rfl
      rw [if_pos (Or.inl h0)]

/-- C4 amended, witnessed at a labelled table with zero rows. -/
theorem compute_correlation_matrices_total_witness :
    tbRowsEmpty.rows = [] ∧
    (compute_correlation_matrices tbRowsEmpty).isOk = true ∧
    corrEntry tbRowsEmpty SHORT_TERM_DAYS 0 0 = none :=
  ⟨rfl, (compute_correlation_matrices_total tbRowsEmpty).1,
    ((compute_correlation_matrices_total tbRowsEmpty).2 rfl 0 0).1⟩

/-- C6, witnessed on `tb62`: both returned matrices have diagonal entry 1
at instrument 0, whose short and medium return series have nonzero
variance. -/
theorem compute_correlation_matrices_symm_diag_witness :
    compute_correlation_matrices tb62 =
      Except.ok ((fun i j => corrEntry tb62 SHORT_TERM_DAYS i j),
        (fun i j => corrEntry tb62 MEDIUM_TERM_DAYS i j)) ∧
    varQ (column (survivors tb62 SHORT_TERM_DAYS) 0) ≠ 0 ∧
    varQ (column (survivors tb62 MEDIUM_TERM_DAYS) 0) ≠ 0 ∧
    corrEntry tb62 SHORT_TERM_DAYS 0 0 = some 1 ∧
    corrEntry tb62 MEDIUM_TERM_DAYS 0 0 = some 1 := by
  have hvar : varQ [(2 : ℚ)/1 - 1, (3 : ℚ)/1 - 1] ≠ 0 := by
    norm_num [varQ, covQ, meanQ]
  have hS : varQ (column (survivors tb62 SHORT_TERM_DAYS) 0) ≠ 0 := by
    have hc : column (survivors tb62 SHORT_TERM_DAYS) 0 =
        [(2 : ℚ)/1 - 1, (3 : ℚ)/1 - 1] := rfl
    rw [hc]
    exact hvar
  have hM : varQ (column (survivors tb62 MEDIUM_TERM_DAYS) 0) ≠ 0 := by
    have hc : column (survivors tb62 MEDIUM_TERM_DAYS) 0 =
        [(2 : ℚ)/1 - 1, (3 : ℚ)/1 - 1] := rfl
    rw [hc]
    exact hvar
  refine ⟨rfl, hS, hM, ?_, ?_⟩
  · exact (compute_correlation_matrices_symm_diag tb62 _ _ rfl).2.1 0 hS
  · exact (compute_correlation_matrices_symm_diag tb62 _ _ rfl).2.2 0 hM

/-- C5: the engine returns, for each window, the matrix of Pearson
coefficients of the instrument return columns over the surviving rows;
the W-period change at (t, c) is price[t]/price[t-W] - 1, undefined for
insufficient history or a missing price; a row survives exactly when it is
fully populated. -/
theorem compute_correlation_matrices_pipeline :
    (∀ tb : PriceTable,
      compute_correlation_matrices tb =
        Except.ok
          ((fun i j => pearson (column (survivors tb SHORT_TERM_DAYS) i)
              (column (survivors tb SHORT_TERM_DAYS) j)),
           (fun i j => pearson (column (survivors tb MEDIUM_TERM_DAYS) i)
              (column (survivors tb MEDIUM_TERM_DAYS) j)))) ∧
    (∀ (tb : PriceTable) (W t c : Nat), t < tb.rows.length → c < tb.cols.length →
      pcell (pctChange W tb) t c =
        some (if W ≤ t then
          (cell tb.rows t c).bind
            (fun p => (cell tb.rows (t - W) c).map (fun q => p / q - 1))
        else none)) ∧
    (∀ (tb : PriceTable) (W : Nat) (r : PRow),
      r ∈ survivors tb W ↔ r ∈ pctChange W tb ∧ r.all Option.isSome = true) ∧
    (∀ xs ys : List ℚ, varQ xs ≠ 0 → varQ ys ≠ 0 →
      pearson xs ys =
        some ((covQ xs ys : ℝ) /
          (Real.sqrt (varQ xs) * Real.sqrt (varQ ys)))) := by
  refine ⟨fun tb => rfl, ?_, ?_, ?_⟩
  · intro tb W t c ht hc
    unfold pcell pctChange
    rw [List.get?_map, List.get?_range ht]
    rw [Option.map_some', Option.some_bind]
    rw [List.get?_map, List.get?_range hc]
    rw [Option.map_some']
    by_cases hW : W ≤ t
    · rw [if_pos hW, if_pos hW]
      cases cell tb.rows t c with
      | none => rfl
      | some p =>
        cases cell tb.rows (t - W) c with
        | none => rfl
        | some q => rfl
    · rw [if_neg hW, if_neg hW]
  · intro tb W r
    unfold survivors dropna
    rw [List.mem_filter]
    unfold rowComplete
    exact Iff.rfl
  · intro xs ys h1 h2
    unfold pearson
    rw [if_neg (fun hc => hc.elim h1 h2)]

/-- C5, witnessed on a two-row table with window 1: the first row has no
prior price (undefined change), the second row's change is 2/1 - 1. -/
theorem compute_correlation_matrices_pipeline_witness :
    0 < tbShort.rows.length ∧ 1 < tbShort.rows.length ∧ 0 < tbShort.cols.length ∧
    pcell (pctChange 1 tbShort) 0 0 = some none ∧
    pcell (pctChange 1 tbShort) 1 0 = some (some ((2 : ℚ)/1 - 1)) := by
  refine ⟨by decide, by decide, by decide, ?_, ?_⟩
  · exact (compute_correlation_matrices_pipeline.2.1 tbShort 1 0 0 (by decide)
      (by decide)).trans rfl
  · exact (compute_correlation_matrices_pipeline.2.1 tbShort 1 1 0 (by decide)
      (by decide)).trans rfl

/- ---- Category mapper lemmas ---- -/

theorem lookupStr_cons (p : String × String) (m : List (String × String))
    (k : String) :
    lookupStr (p :: m) k =
      if (p.1 == k) = true then some p.2 else lookupStr m k := by
  unfold lookupStr
  by_cases h : (p.1 == k) = true
  · rw [@List.find?_cons_of_pos _ (fun q => q.1 == k) p m h, if_pos h]
    rfl
  · rw [@List.find?_cons_of_neg _ (fun q => q.1 == k) p m h, if_neg h]

theorem lookupStr_dictSet (m : List (String × String)) (k v k' : String) :
    lookupStr (dictSet m k v) k' = if k' = k then some v else lookupStr m k' := by
  induction m with
  | nil =>
    show lookupStr [(k, v)] k' = _
    rw [lookupStr_cons]
    by_cases h : k' = k
    · subst h
      rw [if_pos (by simp), if_pos rfl]
    · rw [if_neg (by simp [beq_iff_eq]; exact fun hh => h hh.symm), if_neg h]
  | cons p m ih =>
    show lookupStr (if (p.1 == k) = true then (k, v) :: m else p :: dictSet m k v) k' = _
    by_cases hp : (p.1 == k) = true
    · rw [if_pos hp, lookupStr_cons, lookupStr_cons]
      have hpk : p.1 = k := eq_of_beq hp
      by_cases h : k' = k
      · subst h
        rw [if_pos (by simp), if_pos rfl]
      · rw [if_neg (by simp [beq_iff_eq]; exact fun hh => h hh.symm), if_neg h,
          if_neg (by simp [beq_iff_eq, hpk]; exact fun hh => h hh.symm)]
    · rw [if_neg hp, lookupStr_cons, lookupStr_cons, ih]
      by_cases hq : (p.1 == k') = true
      · have hk : ¬(k' = k) := by
          intro hh
          subst hh
          exact hp hq
        rw [if_pos hq, if_neg hk, if_pos hq]
      · rw [if_neg hq, if_neg hq]

theorem lookupStr_applyTicker (assets : List String) :
    ∀ (cm : List (String × String)) (p : String × String) (a : String),
      lookupStr (applyTicker assets cm p) a =
        if a ∈ assets ∧ tickerMatches p.2 a = true then some p.1
        else lookupStr cm a := by
  induction assets with
  | nil =>
    intro cm p a
    rw [if_neg (by simp)]
    rfl
  | cons b rest ih =>
    intro cm p a
    show lookupStr
        (applyTicker rest (if tickerMatches p.2 b = true then dictSet cm b p.1 else cm) p) a = _
    rw [ih]
    by_cases hmem : a ∈ rest ∧ tickerMatches p.2 a = true
    · rw [if_pos hmem, if_pos ⟨List.mem_cons_of_mem b hmem.1, hmem.2⟩]
    · rw [if_neg hmem]
      by_cases hb : tickerMatches p.2 b = true
      · rw [if_pos hb, lookupStr_dictSet]
        by_cases hab : a = b
        · subst hab
          rw [if_pos rfl, if_pos ⟨List.mem_cons_self a rest, hb⟩]
        · have hno : ¬(a ∈ b :: rest ∧ tickerMatches p.2 a = true) := by
            rintro ⟨hmem2, hm⟩
            rcases List.mem_cons.mp hmem2 with h1 | h1
            · exact hab h1
            · exact hmem ⟨h1, hm⟩
          rw [if_neg hab, if_neg hno]
      · have hno : ¬(a ∈ b :: rest ∧ tickerMatches p.2 a = true) := by
          rintro ⟨hmem2, hm⟩
          rcases List.mem_cons.mp hmem2 with h1 | h1
          · subst h1
            exact hb hm
          · exact hmem ⟨h1, hm⟩
        rw [if_neg hb, if_neg hno]

/-- Bridge: the executable `List.isPrefixOf` agrees with the `<+:`
relation on character lists. -/
theorem charPrefixIff {l1 l2 : List Char} : l1.isPrefixOf l2 = true ↔ l1 <+: l2 :=
  List.isPrefixOf_iff_prefix

/-- Two space-free character sequences followed by a space that are both
prefixes of the same sequence are equal. -/
theorem prefix_space_free :
    ∀ (x y : List Char), (' ' : Char) ∉ x → (' ' : Char) ∉ y →
      (x ++ [' ']) <+: (y ++ [' ']) → x = y := by
  intro x
  induction x with
  | nil =>
    intro y _ hy h
    cases y with
    | nil => rfl
    | cons c ys =>
      rw [List.nil_append, List.cons_append] at h
      have hc := (List.cons_prefix_cons.mp h).1
      exact absurd (hc ▸ List.mem_cons_self c ys) hy
  | cons a xs ih =>
    intro y hx hy h
    cases y with
    | nil =>
      rw [List.nil_append, List.cons_append] at h
      obtain ⟨ha, hrest⟩ := List.cons_prefix_cons.mp h
      have := hrest.length_le
      simp at this
    | cons b ys =>
      rw [List.cons_append, List.cons_append] at h
      obtain ⟨hab, hrest⟩ := List.cons_prefix_cons.mp h
      subst hab
      have hx2 : (' ' : Char) ∉ xs := fun hm => hx (List.mem_cons_of_mem _ hm)
      have hy2 : (' ' : Char) ∉ ys := fun hm => hy (List.mem_cons_of_mem _ hm)
      rw [ih ys hx2 hy2 hrest]

/-- A label can match at most one space-free ticker prefix. -/
theorem tickerMatches_unique (t1 t2 a : String)
    (h1 : (' ' : Char) ∉ t1.data) (h2 : (' ' : Char) ∉ t2.data)
    (m1 : tickerMatches t1 a = true) (m2 : tickerMatches t2 a = true) :
    t1 = t2 := by
  unfold tickerMatches at m1 m2
  rw [Bool.or_eq_true] at m1 m2
  rcases m1 with m1 | m1 <;> rcases m2 with m2 | m2
  · have p1 := charPrefixIff.mp m1
    have p2 := charPrefixIff.mp m2
    rcases List.prefix_or_prefix_of_prefix p1 p2 with hp | hp
    · exact String.ext (prefix_space_free t1.data t2.data h1 h2 hp)
    · exact (String.ext (prefix_space_free t2.data t1.data h2 h1 hp)).symm
  · have ha : a = t2 := eq_of_beq m2
    subst ha
    have p1 := charPrefixIff.mp m1
    exact absurd (p1.subset (by simp)) h2
  · have ha : a = t1 := eq_of_beq m1
    subst ha
    have p2 := charPrefixIff.mp m2
    exact absurd (p2.subset (by simp)) h1
  · exact (eq_of_beq m1).symm.trans (eq_of_beq m2)

theorem taxPairs_space_free : ∀ p ∈ taxPairs, (' ' : Char) ∉ p.2.data := by
  decide

theorem taxPairs_snd_nodup : taxPairs.Pairwise (fun p q => p.2 ≠ q.2) := by
  decide

theorem lookupStr_foldl_applyTicker (assets : List String) :
    ∀ (ps : List (String × String)) (cm : List (String × String)) (a : String),
      (∀ p ∈ ps, (' ' : Char) ∉ p.2.data) →
      ps.Pairwise (fun p q => p.2 ≠ q.2) →
      lookupStr (ps.foldl (applyTicker assets) cm) a =
        match ps.find? (fun p => decide (a ∈ assets) && tickerMatches p.2 a) with
        | some p => some p.1
        | none => lookupStr cm a := by
  intro ps
  induction ps with
  | nil =>
    intro cm a _ _
    rfl
  | cons p ps ih =>
    intro cm a hsp hpw
    rw [List.foldl_cons]
    have hspT := fun q hq => hsp q (List.mem_cons_of_mem p hq)
    have hpwH := (List.pairwise_cons.mp hpw).1
    have hpwT := (List.pairwise_cons.mp hpw).2
    rw [ih (applyTicker assets cm p) a hspT hpwT]
    by_cases hpred : (decide (a ∈ assets) && tickerMatches p.2 a) = true
    · rw [@List.find?_cons_of_pos _
        (fun q => decide (a ∈ assets) && tickerMatches q.2 a) p ps hpred]
      have hnone : ps.find?
          (fun q => decide (a ∈ assets) && tickerMatches q.2 a) = none := by
        rw [List.find?_eq_none]
        intro q hq hq2
        rw [Bool.and_eq_true] at hpred hq2
        have := tickerMatches_unique p.2 q.2 a
          (hsp p (List.mem_cons_self p ps)) (hspT q hq) hpred.2 hq2.2
        exact (hpwH q hq) this
      rw [hnone, lookupStr_applyTicker]
      rw [Bool.and_eq_true] at hpred
      rw [if_pos ⟨of_decide_eq_true hpred.1, hpred.2⟩]
    · rw [@List.find?_cons_of_neg _
        (fun q => decide (a ∈ assets) && tickerMatches q.2 a) p ps hpred]
      cases hfind : ps.find?
          (fun q => decide (a ∈ assets) && tickerMatches q.2 a) with
      | some q => rfl
      | none =>
        rw [lookupStr_applyTicker]
        rw [if_neg (fun hc =>
          hpred (by rw [Bool.and_eq_true]; exact ⟨decide_eq_true hc.1, hc.2⟩))]

theorem build_category_map_eq_foldl (assets : List String) :
    build_category_map assets = taxPairs.foldl (applyTicker assets) [] := by
  unfold build_category_map taxPairs
  suffices h : ∀ (ss : List (String × List String)) (cm : List (String × String)),
      ss.foldl
        (fun cm ct =>
          ct.2.foldl
            (fun cm t =>
              assets.foldl
                (fun cm a => if tickerMatches t a then dictSet cm a ct.1 else cm)
                cm)
            cm)
        cm =
      (ss.foldr (fun s acc => s.2.map (fun t => (s.1, t)) ++ acc) []).foldl
        (applyTicker assets) cm by
    exact h SECTORS []
  intro ss
  induction ss with
  | nil =>
    intro cm
    rfl
  | cons q ss ih =>
    intro cm
    rw [List.foldl_cons, List.foldr_cons, List.foldl_append, ih]
    congr 1
    rw [List.foldl_map]
    rfl

theorem mem_taxPairs (c t : String) :
    (c, t) ∈ taxPairs ↔ ∃ ts, (c, ts) ∈ SECTORS ∧ t ∈ ts := by
  unfold taxPairs
  suffices h : ∀ ss : List (String × List String),
      ((c, t) ∈ ss.foldr (fun s acc => s.2.map (fun t => (s.1, t)) ++ acc) [] ↔
        ∃ ts, (c, ts) ∈ ss ∧ t ∈ ts) from h SECTORS
  intro ss
  induction ss with
  | nil => simp
  | cons q ss ih =>
    rw [List.foldr_cons, List.mem_append, ih]
    constructor
    · rintro (hm | ⟨ts, hts, htm⟩)
      · obtain ⟨t2, ht2, heq⟩ := List.mem_map.mp hm
        have hc : q.1 = c := congrArg Prod.fst heq
        have ht : t2 = t := congrArg Prod.snd heq
        subst hc
        subst ht
        exact ⟨q.2, ⟨by rw [Prod.mk.eta]; exact List.mem_cons_self q ss, ht2⟩⟩
      · exact ⟨ts, List.mem_cons_of_mem q hts, htm⟩
    · rintro ⟨ts, hts, htm⟩
      rcases List.mem_cons.mp hts with h1 | h1
      · left
        apply List.mem_map.mpr
        refine ⟨t, ?_, ?_⟩
        · rw [← congrArg Prod.snd h1]
          exact htm
        · rw [← congrArg Prod.fst h1]
      · right
        exact ⟨ts, h1, htm⟩

/-- C7: `build_category_map` maps a label to sector s exactly when the
label equals one of s's ticker prefixes or starts with that prefix followed
by a space (labels matching none are absent), and the standard 4-label
example produces exactly the expected map. -/
theorem build_category_map_prefix_rule :
    (∀ (assets : List String) (a s : String),
      lookupStr (build_category_map assets) a = some s ↔
        (a ∈ assets ∧ ∃ ts, (s, ts) ∈ SECTORS ∧
          ∃ t ∈ ts, (a = t ∨ (t.data ++ [' ']) <+: a.data))) ∧
    build_category_map ["ES (S&P 500)", "BTC", "GC (Gold)", "Unknown Asset"] =
      [("ES (S&P 500)", "Stock Indices"), ("GC (Gold)", "Metals"),
        ("BTC", "Crypto")] := by
  refine ⟨?_, by decide⟩
  intro assets a s
  rw [build_category_map_eq_foldl,
    lookupStr_foldl_applyTicker assets taxPairs [] a taxPairs_space_free
      taxPairs_snd_nodup]
  constructor
  · intro h
    cases hfind : taxPairs.find?
        (fun p => decide (a ∈ assets) && tickerMatches p.2 a) with
    | none =>
      rw [hfind] at h
      simp [lookupStr] at h
    | some p =>
      rw [hfind] at h
      injection h with h
      subst h
      have hp := List.mem_of_find?_eq_some hfind
      have hpred := List.find?_some hfind
      rw [Bool.and_eq_true] at hpred
      refine ⟨of_decide_eq_true hpred.1, ?_⟩
      obtain ⟨ts, hts, htm⟩ := (mem_taxPairs p.1 p.2).mp (by rw [Prod.mk.eta]; exact hp)
      refine ⟨ts, hts, p.2, htm, ?_⟩
      have hm := hpred.2
      unfold tickerMatches at hm
      rw [Bool.or_eq_true] at hm
      rcases hm with hm | hm
      · exact Or.inr (charPrefixIff.mp hm)
      · exact Or.inl (eq_of_beq hm)
  · rintro ⟨hmem, ts, hts, t, htm, hmatch⟩
    have hpt : (s, t) ∈ taxPairs := (mem_taxPairs s t).mpr ⟨ts, hts, htm⟩
    have hmB : tickerMatches t a = true := by
      unfold tickerMatches
      rw [Bool.or_eq_true]
      rcases hmatch with h | h
      · exact Or.inr (beq_iff_eq.mpr h)
      · exact Or.inl (charPrefixIff.mpr h)
    have hpred : (decide (a ∈ assets) && tickerMatches (s, t).2 a) = true := by
      rw [Bool.and_eq_true]
      exact ⟨decide_eq_true hmem, hmB⟩
    cases hfind : taxPairs.find?
        (fun p => decide (a ∈ assets) && tickerMatches p.2 a) with
    | none =>
      rw [List.find?_eq_none] at hfind
      exact absurd hpred (hfind (s, t) hpt)
    | some q =>
      have hq := List.mem_of_find?_eq_some hfind
      have hqpred := List.find?_some hfind
      rw [Bool.and_eq_true] at hqpred
      have hteq : q.2 = t := tickerMatches_unique q.2 t a
        (taxPairs_space_free q hq) (taxPairs_space_free (s, t) hpt)
        hqpred.2 hmB
      by_cases hqe : q = (s, t)
      · rw [hqe]
      · exfalso
        have hsym : Symmetric (fun p q : String × String => p.2 ≠ q.2) :=
          fun x y h he => h he.symm
        exact (taxPairs_snd_nodup.forall hsym hq hpt hqe) hteq

end MarketCorr
